import Mathlib

/-!
Verification of the terrain-maker core (brush engine, history engine,
procedural generator, stroke target sampling) against its specification.

The TypeScript source is embedded shallowly over exact rationals:

* `number` is modelled as `ℚ`.  The transcendental / irrational float
  primitives (`Math.sqrt`, `Math.sin`, `Math.cos`, `Math.pow`, `Math.PI`,
  sRGB decoding) are abstracted into a `RealOps` record that every embedded
  function takes as a parameter; all theorems hold for every choice of
  `RealOps`, in particular for the true real-valued primitives.  No claim
  below depends on the value of any of these primitives.
* `Float32Array` buffers are `List ℚ`.  Out-of-range JS writes are dropped
  and reads default (`List.set` is a no-op out of range, reads use `getD`);
  the data-model invariant (`heightData.length = (W+1)*(H+1)`,
  `colorData.length = 3 * heightData.length`) keeps every read performed by
  the embedded code in range.
* Each brush loop writes every buffer slot at most once and reads the
  freshly written buffer only at the slot being written (all other reads go
  to the input buffers), so the loop is embedded as a pointwise rebuild
  (`overwrite`) of the buffer.
-/

namespace TerrainMaker

/-- Abstraction of the irrational float primitives used by the source.
Every theorem is universally quantified over this record. -/
structure RealOps where
  sqrt : ℚ → ℚ
  sin : ℚ → ℚ
  cos : ℚ → ℚ
  pow : ℚ → ℚ → ℚ
  srgbToLinear : ℚ → ℚ
  pi : ℚ

/-! ## constants.ts -/

def TERRAIN_WIDTH : ℚ := 100000

def TERRAIN_HEIGHT : ℚ := 100000

def TERRAIN_SEGMENTS_X : ℕ := 128

def TERRAIN_SEGMENTS_Y : ℕ := 128

def SEA_FLOOR_LEVEL : ℚ := -10

def SNOW_LEVEL : ℚ := 40

def ROCK_LEVEL : ℚ := 25

def LAND_LEVEL : ℚ := 0

/-- Linear-RGB colour triple (three.js `Color`). -/
structure Color3 where
  r : ℚ
  g : ℚ
  b : ℚ
deriving DecidableEq, Repr

/-- Channel values of the colour constants, taken from their hex codes
(channel = hex byte / 255).  No claim depends on these values. -/
def snowColor : Color3 := ⟨1, 1, 1⟩

def rockColor : Color3 := ⟨153/255, 153/255, 153/255⟩

def landColor : Color3 := ⟨204/255, 204/255, 204/255⟩

def sandColor : Color3 := ⟨242/255, 226/255, 160/255⟩

/-! ## types.ts -/

inductive Tool where
  | Raise
  | Lower
  | Flatten
  | Smooth
  | Paint
  | Plane
deriving DecidableEq, Repr

structure BrushSettings where
  size : ℚ
deriving DecidableEq, Repr

inductive PaintMode where
  | color
  | texture
deriving DecidableEq, Repr

structure TextureSettings where
  scale : ℚ
  rotation : ℚ
  blendWeight : ℚ
deriving DecidableEq, Repr

/-- World-space point (three.js `Vector3`). -/
structure Vec3 where
  x : ℚ
  y : ℚ
  z : ℚ
deriving DecidableEq, Repr

/-- A decoded paint texture: the canvas pixel grid backing
`getImageData` (one byte-valued channel triple per pixel). -/
structure Texture where
  width : ℕ
  height : ℕ
  pixel : ℕ → ℕ → ℚ × ℚ × ℚ

/-! ## terrainUtils.ts (brush engine) -/

def VERTICES_X : ℕ := TERRAIN_SEGMENTS_X + 1

def VERTICES_Y : ℕ := TERRAIN_SEGMENTS_Y + 1

/-- Number of grid vertices, `(W+1)*(H+1)`; the double loop
`for y < VERTICES_Y, x < VERTICES_X` touches exactly the linear indices
below this bound. -/
def totalVertices : ℕ := VERTICES_X * VERTICES_Y

def BRUSH_INTENSITY_MULTIPLIER : ℚ := 3000

def DEFAULT_STRENGTH : ℚ := 1/2

/-- `const smoothStep = (min, max, value) => ...` -/
def smoothStep (lo hi value : ℚ) : ℚ :=
  let x := max 0 (min 1 ((value - lo) / (hi - lo)))
  x * x * (3 - 2 * x)

/-- The per-vertex brush weight used by every tool:
`falloff = 1 - smoothStep(0, radius, distance)`. -/
def brushFalloff (radius distance : ℚ) : ℚ :=
  1 - smoothStep 0 radius distance

theorem smoothStep_nonneg (lo hi v : ℚ) : 0 ≤ smoothStep lo hi v := by
  have key : ∀ x : ℚ, 0 ≤ x → x ≤ 1 → 0 ≤ x * x * (3 - 2 * x) := by
    intro x h0 h1; nlinarith
  exact key _ (le_max_left _ _) (max_le (by norm_num) (min_le_left _ _))

theorem smoothStep_le_one (lo hi v : ℚ) : smoothStep lo hi v ≤ 1 := by
  have key : ∀ x : ℚ, 0 ≤ x → x ≤ 1 → x * x * (3 - 2 * x) ≤ 1 := by
    intro x h0 h1
    nlinarith [mul_nonneg (sq_nonneg (1 - x)) (by linarith : (0:ℚ) ≤ 1 + 2 * x)]
  exact key _ (le_max_left _ _) (max_le (by norm_num) (min_le_left _ _))

theorem brushFalloff_nonneg (r d : ℚ) : 0 ≤ brushFalloff r d := by
  have := smoothStep_le_one 0 r d
  unfold brushFalloff
  linarith

theorem brushFalloff_le_one (r d : ℚ) : brushFalloff r d ≤ 1 := by
  have := smoothStep_nonneg 0 r d
  unfold brushFalloff
  linarith

theorem cubicHermite_mono {a b : ℚ} (h0 : 0 ≤ a) (hab : a ≤ b) (h1 : b ≤ 1) :
    a * a * (3 - 2 * a) ≤ b * b * (3 - 2 * b) := by
  nlinarith [mul_nonneg (sub_nonneg.2 hab) h0,
    mul_nonneg (sub_nonneg.2 hab) (sub_nonneg.2 h1),
    mul_nonneg (mul_nonneg (sub_nonneg.2 hab) h0) (sub_nonneg.2 h1),
    mul_nonneg (mul_nonneg (sub_nonneg.2 hab) h0) h0,
    mul_nonneg (mul_nonneg (sub_nonneg.2 hab) (sub_nonneg.2 h1)) (sub_nonneg.2 h1)]

theorem smoothStep_mono (lo hi : ℚ) (hpos : lo < hi) {a b : ℚ} (hab : a ≤ b) :
    smoothStep lo hi a ≤ smoothStep lo hi b := by
  have hd : (0:ℚ) < hi - lo := by linarith
  have hx : (a - lo) / (hi - lo) ≤ (b - lo) / (hi - lo) :=
    (div_le_div_iff_of_pos_right hd).mpr (by linarith)
  have hclamp : max 0 (min 1 ((a - lo) / (hi - lo)))
      ≤ max 0 (min 1 ((b - lo) / (hi - lo))) :=
    max_le_max (le_refl 0) (min_le_min (le_refl 1) hx)
  have h0 : (0:ℚ) ≤ max 0 (min 1 ((a - lo) / (hi - lo))) := le_max_left _ _
  have h1 : max 0 (min 1 ((b - lo) / (hi - lo))) ≤ 1 :=
    max_le (by norm_num) (min_le_left _ _)
  simpa only [smoothStep] using cubicHermite_mono h0 hclamp h1

/-- C5 counterexample: the claim asserts `smoothStep(0, r, 0) = 1`, but the
source function evaluates to `0` at the center (it is the raw cubic-Hermite
step, not the falloff weight); at radius `r = 2` the claimed value is wrong. -/
theorem smoothStep_at_center_ne_one : smoothStep 0 2 0 ≠ 1 := by
  norm_num [smoothStep]

/-- C5 (amended): the brush weighting function actually applied to each
vertex is the falloff `1 - smoothStep(0, r, distance)`; for every radius
`r > 0` it is `1` at distance `0`, `0` at distance `r`, and monotonically
non-increasing in the distance argument over `[0, r]` (the raw `smoothStep`
is correspondingly `0` at the center, `1` at the radius, and non-decreasing). -/
theorem falloff_one_at_center_zero_at_radius_antitone (r : ℚ) (hr : 0 < r) :
    brushFalloff r 0 = 1 ∧ brushFalloff r r = 0 ∧
      ∀ d₁ d₂ : ℚ, 0 ≤ d₁ → d₁ ≤ d₂ → d₂ ≤ r →
        brushFalloff r d₂ ≤ brushFalloff r d₁ := by
  refine ⟨?_, ?_, ?_⟩
  · norm_num [brushFalloff, smoothStep]
  · have hrr : r / r = 1 := div_self (ne_of_gt hr)
    norm_num [brushFalloff, smoothStep, hrr]
  · intro d₁ d₂ _ h12 _
    have := smoothStep_mono 0 r (by linarith) h12
    unfold brushFalloff
    linarith

/-- Witness for the amended C5 theorem at radius `2`, distances `0 ≤ 1`. -/
theorem falloff_weight_witness :
    brushFalloff 2 0 = 1 ∧ brushFalloff 2 2 = 0 ∧ brushFalloff 2 1 ≤ brushFalloff 2 0 :=
  ⟨(falloff_one_at_center_zero_at_radius_antitone 2 (by norm_num)).1,
   (falloff_one_at_center_zero_at_radius_antitone 2 (by norm_num)).2.1,
   (falloff_one_at_center_zero_at_radius_antitone 2 (by norm_num)).2.2 0 1
     (by norm_num) (by norm_num) (by norm_num)⟩

/-! ## Buffer model

Each brush loop allocates `new Float32Array(input)` and then writes every
buffer slot at most once, reading the fresh array only at the slot being
written; so the loop is the pointwise rebuild below.  The rebuilt list has
exactly the input's length (JS writes beyond the backing array's length are
dropped, which the `i < totalVertices`-style guards below make explicit). -/

def overwrite (l : List ℚ) (f : ℕ → ℚ → ℚ) : List ℚ :=
  (List.range l.length).map fun i => f i (l.getD i 0)

theorem length_overwrite (l : List ℚ) (f : ℕ → ℚ → ℚ) :
    (overwrite l f).length = l.length := by
  simp [overwrite]

theorem getElem?_overwrite (l : List ℚ) (f : ℕ → ℚ → ℚ) (i : ℕ) (hi : i < l.length) :
    (overwrite l f)[i]? = some (f i (l.getD i 0)) := by
  simp [overwrite, List.getElem?_map, List.getElem?_range, hi]

theorem getElem?_overwrite_congr (l : List ℚ) (f : ℕ → ℚ → ℚ) (i : ℕ)
    (hf : f i (l.getD i 0) = l.getD i 0) :
    (overwrite l f)[i]? = l[i]? := by
  rcases Nat.lt_or_ge i l.length with hi | hi
  · rw [getElem?_overwrite l f i hi, hf, List.getElem?_eq_getElem hi]
    simp [List.getD_eq_getElem?_getD, List.getElem?_eq_getElem hi]
  · rw [List.getElem?_eq_none hi,
      List.getElem?_eq_none (by simpa [length_overwrite] using hi)]

theorem getD_overwrite (l : List ℚ) (f : ℕ → ℚ → ℚ) (i : ℕ) (hi : i < l.length) :
    (overwrite l f).getD i 0 = f i (l.getD i 0) := by
  rw [List.getD_eq_getElem?_getD, getElem?_overwrite l f i hi]
  rfl

/-! ## Brush engine definitions -/

/-- `color1.lerpColors(c1, c2, t)` of three.js. -/
def lerpColors (c1 c2 : Color3) (t : ℚ) : Color3 :=
  ⟨c1.r + (c2.r - c1.r) * t, c1.g + (c2.g - c1.g) * t, c1.b + (c2.b - c1.b) * t⟩

/-- Channel `k` (0 = r, 1 = g, 2 = b) of a colour; buffer slot `3*i + k`
holds channel `k` of vertex `i`. -/
def channel (c : Color3) (k : ℕ) : ℚ :=
  if k = 0 then c.r else if k = 1 then c.g else c.b

def calculateColorFromHeight (height : ℚ) : Color3 :=
  if SNOW_LEVEL ≤ height then snowColor
  else if ROCK_LEVEL ≤ height then
    lerpColors rockColor snowColor ((height - ROCK_LEVEL) / (SNOW_LEVEL - ROCK_LEVEL))
  else if LAND_LEVEL ≤ height then
    lerpColors landColor rockColor ((height - LAND_LEVEL) / (ROCK_LEVEL - LAND_LEVEL))
  else sandColor

def generateInitialColorData (heightData : List ℚ) : List ℚ :=
  (heightData.map fun h =>
    let c := calculateColorFromHeight h
    [c.r, c.g, c.b]).flatten

/-- World X of grid column `x`: `(x / TERRAIN_SEGMENTS_X - 0.5) * TERRAIN_WIDTH`. -/
def vertexWorldX (x : ℕ) : ℚ :=
  ((x : ℚ) / (TERRAIN_SEGMENTS_X : ℚ) - 1/2) * TERRAIN_WIDTH

/-- World Z of grid row `y`: `(y / TERRAIN_SEGMENTS_Y - 0.5) * TERRAIN_HEIGHT`. -/
def vertexWorldZ (y : ℕ) : ℚ :=
  ((y : ℚ) / (TERRAIN_SEGMENTS_Y : ℚ) - 1/2) * TERRAIN_HEIGHT

/-- Squared planar (X,Z) distance from the brush center to the vertex with
linear index `i` (row `i / VERTICES_X`, column `i % VERTICES_X`);
`dx*dx + dz*dz` of the source loops. -/
def distSqIdx (ip : Vec3) (i : ℕ) : ℚ :=
  let dx := vertexWorldX (i % VERTICES_X) - ip.x
  let dz := vertexWorldZ (i / VERTICES_X) - ip.z
  dx * dx + dz * dz

def applyRaiseLower (ops : RealOps) (heightData colorData : List ℚ)
    (intersectionPoint : Vec3) (brush : BrushSettings) (isRaise : Bool) :
    List ℚ × List ℚ :=
  let brushRadius := brush.size / 2
  let brushRadiusSq := brushRadius * brushRadius
  let newHeightAt : ℕ → ℚ → ℚ := fun i currentHeight =>
    let distance := ops.sqrt (distSqIdx intersectionPoint i)
    let falloff := brushFalloff brushRadius distance
    let amount := (if isRaise then 1 else -1) * DEFAULT_STRENGTH * falloff *
      BRUSH_INTENSITY_MULTIPLIER
    let newHeight := currentHeight + amount
    if isRaise then min newHeight TERRAIN_WIDTH else max SEA_FLOOR_LEVEL newHeight
  let newHeightData := overwrite heightData fun i h =>
    if i < totalVertices ∧ distSqIdx intersectionPoint i < brushRadiusSq then
      newHeightAt i h
    else h
  let newColorData := overwrite colorData fun j c =>
    let i := j / 3
    if i < totalVertices ∧ distSqIdx intersectionPoint i < brushRadiusSq then
      let falloff := brushFalloff brushRadius (ops.sqrt (distSqIdx intersectionPoint i))
      let newColor := calculateColorFromHeight (newHeightAt i (heightData.getD i 0))
      c + (channel newColor (j % 3) - c) * (DEFAULT_STRENGTH * falloff)
    else c
  (newHeightData, newColorData)

def applyFlatten (ops : RealOps) (heightData colorData : List ℚ)
    (intersectionPoint : Vec3) (brush : BrushSettings) (targetHeight : ℚ) :
    List ℚ × List ℚ :=
  let brushRadius := brush.size / 2
  let brushRadiusSq := brushRadius * brushRadius
  let newHeightAt : ℕ → ℚ → ℚ := fun i currentHeight =>
    let falloff := brushFalloff brushRadius (ops.sqrt (distSqIdx intersectionPoint i))
    let strength := DEFAULT_STRENGTH * falloff
    currentHeight + (targetHeight - currentHeight) * strength
  let newHeightData := overwrite heightData fun i h =>
    if i < totalVertices ∧ distSqIdx intersectionPoint i < brushRadiusSq then
      newHeightAt i h
    else h
  let newColorData := overwrite colorData fun j c =>
    let i := j / 3
    if i < totalVertices ∧ distSqIdx intersectionPoint i < brushRadiusSq then
      let strength := DEFAULT_STRENGTH *
        brushFalloff brushRadius (ops.sqrt (distSqIdx intersectionPoint i))
      let newColor := calculateColorFromHeight (newHeightAt i (heightData.getD i 0))
      c + (channel newColor (j % 3) - c) * strength
    else c
  (newHeightData, newColorData)

/-- The 3×3 neighbourhood offsets `-1..1` of the Smooth kernel. -/
def kernelOffsets : List ℤ := [-1, 0, 1]

/-- Accumulates `(running total of f, neighbour count)` over the up-to-9
in-grid neighbours of vertex `(y, x)` — the inner double loop of
`applySmooth` (outer offset `j`, inner offset `i`). -/
def neighborAcc (f : ℕ → ℚ) (y x : ℕ) : ℚ × ℕ :=
  kernelOffsets.foldl (fun acc j =>
    kernelOffsets.foldl (fun acc2 i =>
      let neighborX := (x : ℤ) + i
      let neighborY := (y : ℤ) + j
      if 0 ≤ neighborX ∧ neighborX < (VERTICES_X : ℤ) ∧
          0 ≤ neighborY ∧ neighborY < (VERTICES_Y : ℤ) then
        (acc2.1 + f (neighborY.toNat * VERTICES_X + neighborX.toNat), acc2.2 + 1)
      else acc2) acc) (0, 0)

def applySmooth (ops : RealOps) (heightData colorData : List ℚ)
    (intersectionPoint : Vec3) (brush : BrushSettings) : List ℚ × List ℚ :=
  let brushRadius := brush.size / 2
  let brushRadiusSq := brushRadius * brushRadius
  let newHeightData := overwrite heightData fun idx h =>
    if idx < totalVertices ∧ distSqIdx intersectionPoint idx < brushRadiusSq then
      let acc := neighborAcc (fun n => heightData.getD n 0)
        (idx / VERTICES_X) (idx % VERTICES_X)
      if 0 < acc.2 then
        let falloff := brushFalloff brushRadius (ops.sqrt (distSqIdx intersectionPoint idx))
        let strength := DEFAULT_STRENGTH * falloff
        let averageHeight := acc.1 / (acc.2 : ℚ)
        h + (averageHeight - h) * strength
      else h
    else h
  let newColorData := overwrite colorData fun j c =>
    let idx := j / 3
    if idx < totalVertices ∧ distSqIdx intersectionPoint idx < brushRadiusSq then
      let acc := neighborAcc (fun n => colorData.getD (n * 3 + j % 3) 0)
        (idx / VERTICES_X) (idx % VERTICES_X)
      if 0 < acc.2 then
        let falloff := brushFalloff brushRadius (ops.sqrt (distSqIdx intersectionPoint idx))
        let strength := DEFAULT_STRENGTH * falloff
        let averageChannel := acc.1 / (acc.2 : ℚ)
        c + (averageChannel - c) * strength
      else c
    else c
  (newHeightData, newColorData)

def applyPaint (ops : RealOps) (heightData colorData : List ℚ)
    (intersectionPoint : Vec3) (brush : BrushSettings) (paintColor : Color3) :
    List ℚ :=
  let brushRadius := brush.size / 2
  let brushRadiusSq := brushRadius * brushRadius
  overwrite colorData fun j c =>
    let i := j / 3
    if i < totalVertices ∧ distSqIdx intersectionPoint i < brushRadiusSq then
      if LAND_LEVEL ≤ heightData.getD i 0 then
        let falloff := brushFalloff brushRadius (ops.sqrt (distSqIdx intersectionPoint i))
        let strength := DEFAULT_STRENGTH * falloff
        c + (channel paintColor (j % 3) - c) * strength
      else c
    else c

/-- The source's `((Math.floor(raw) % w) + w) % w` wraparound; for `w > 0`
this equals the Euclidean remainder used here. -/
def wrapIndex (a : ℤ) (w : ℕ) : ℕ := (a % (w : ℤ)).toNat

def tripleChannel (p : ℚ × ℚ × ℚ) (k : ℕ) : ℚ :=
  if k = 0 then p.1 else if k = 1 then p.2.1 else p.2.2

/-- `applyTexturePaint` with the canvas pixel source abstracted into
`Texture.pixel` (the `ctx === null` early-out returns an unmodified copy
and is not modelled separately: its result coincides with the input). -/
def applyTexturePaint (ops : RealOps) (heightData colorData : List ℚ)
    (intersectionPoint : Vec3) (brush : BrushSettings)
    (texture : Texture) (textureSettings : TextureSettings) : List ℚ :=
  let brushRadius := brush.size / 2
  let brushRadiusSq := brushRadius * brushRadius
  overwrite colorData fun j c =>
    let i := j / 3
    if i < totalVertices ∧ distSqIdx intersectionPoint i < brushRadiusSq then
      if LAND_LEVEL ≤ heightData.getD i 0 then
        let dxInitial := vertexWorldX (i % VERTICES_X) - intersectionPoint.x
        let dzInitial := vertexWorldZ (i / VERTICES_X) - intersectionPoint.z
        let rotationInRadians := textureSettings.rotation * (ops.pi / 180)
        let cosR := ops.cos rotationInRadians
        let sinR := ops.sin rotationInRadians
        let dx := dxInitial * cosR - dzInitial * sinR
        let dz := dxInitial * sinR + dzInitial * cosR
        let u := (dx / brushRadius) * (1/2) + 1/2
        let v := (dz / brushRadius) * (1/2) + 1/2
        let u_scaled := u * textureSettings.scale
        let v_scaled := v * textureSettings.scale
        let u_pixel := u_scaled * (texture.width : ℚ) - 1/2
        let v_pixel := (1 - v_scaled) * (texture.height : ℚ) - 1/2
        let texX0 : ℤ := ⌊u_pixel⌋
        let texY0 : ℤ := ⌊v_pixel⌋
        let fracX := u_pixel - (texX0 : ℚ)
        let fracY := v_pixel - (texY0 : ℚ)
        let p00 := texture.pixel (wrapIndex texX0 texture.width) (wrapIndex texY0 texture.height)
        let p10 := texture.pixel (wrapIndex (texX0 + 1) texture.width) (wrapIndex texY0 texture.height)
        let p01 := texture.pixel (wrapIndex texX0 texture.width) (wrapIndex (texY0 + 1) texture.height)
        let p11 := texture.pixel (wrapIndex (texX0 + 1) texture.width) (wrapIndex (texY0 + 1) texture.height)
        let k := j % 3
        let top := tripleChannel p00 k * (1 - fracX) + tripleChannel p10 k * fracX
        let bottom := tripleChannel p01 k * (1 - fracX) + tripleChannel p11 k * fracX
        let finalChannel := top * (1 - fracY) + bottom * fracY
        let textureChannel := ops.srgbToLinear (finalChannel / 255)
        let falloff := brushFalloff brushRadius (ops.sqrt (distSqIdx intersectionPoint i))
        let strength := textureSettings.blendWeight * falloff
        c + (textureChannel - c) * strength
      else c
    else c

/-- `FIXED_STRENGTH` of `applyPlane`. -/
def PLANE_FIXED_STRENGTH : ℚ := 3/10

def applyPlane (ops : RealOps) (heightData colorData : List ℚ)
    (intersectionPoint : Vec3) (brush : BrushSettings) (targetHeight : ℚ) :
    List ℚ × List ℚ :=
  let brushRadius := brush.size / 2
  let brushRadiusSq := brushRadius * brushRadius
  let coreRadius := brushRadius * (4/5)
  let strengthAt : ℕ → ℚ := fun i =>
    let distance := ops.sqrt (distSqIdx intersectionPoint i)
    let falloff :=
      if coreRadius < distance then 1 - smoothStep coreRadius brushRadius distance else 1
    PLANE_FIXED_STRENGTH * falloff
  let newHeightAt : ℕ → ℚ → ℚ := fun i currentHeight =>
    currentHeight + (targetHeight - currentHeight) * strengthAt i
  let newHeightData := overwrite heightData fun i h =>
    if i < totalVertices ∧ distSqIdx intersectionPoint i < brushRadiusSq then
      if targetHeight ≤ h then h else newHeightAt i h
    else h
  let newColorData := overwrite colorData fun j c =>
    let i := j / 3
    if i < totalVertices ∧ distSqIdx intersectionPoint i < brushRadiusSq then
      if targetHeight ≤ heightData.getD i 0 then c
      else
        let newColor := calculateColorFromHeight (newHeightAt i (heightData.getD i 0))
        c + (channel newColor (j % 3) - c) * strengthAt i
    else c
  (newHeightData, newColorData)

structure BrushOptions where
  targetHeight : Option ℚ
  paintColor : Option Color3
  paintMode : Option PaintMode
  paintTexture : Option Texture
  textureSettings : Option TextureSettings

def applyBrush (ops : RealOps) (heightData colorData : List ℚ)
    (intersectionPoint : Vec3) (tool : Tool) (brush : BrushSettings)
    (options : BrushOptions) : Option (List ℚ × List ℚ) :=
  match tool with
  | Tool.Raise =>
      some (applyRaiseLower ops heightData colorData intersectionPoint brush true)
  | Tool.Lower =>
      some (applyRaiseLower ops heightData colorData intersectionPoint brush false)
  | Tool.Flatten =>
      match options.targetHeight with
      | none => none
      | some t => some (applyFlatten ops heightData colorData intersectionPoint brush t)
  | Tool.Smooth =>
      some (applySmooth ops heightData colorData intersectionPoint brush)
  | Tool.Plane =>
      match options.targetHeight with
      | none => none
      | some t => some (applyPlane ops heightData colorData intersectionPoint brush t)
  | Tool.Paint =>
      match options.paintMode with
      | some PaintMode.texture =>
          match options.paintTexture, options.textureSettings with
          | some tex, some ts =>
              some (heightData,
                applyTexturePaint ops heightData colorData intersectionPoint brush tex ts)
          | _, _ => none
      | some PaintMode.color =>
          match options.paintColor with
          | some pc =>
              some (heightData,
                applyPaint ops heightData colorData intersectionPoint brush pc)
          | none => none
      | none => none

/-! ## Frame property (C2) -/

theorem applyRaiseLower_frame (ops : RealOps) (hD cD : List ℚ) (ip : Vec3)
    (brush : BrushSettings) (isRaise : Bool) (i : ℕ)
    (hfar : brush.size / 2 * (brush.size / 2) ≤ distSqIdx ip i) :
    (applyRaiseLower ops hD cD ip brush isRaise).1[i]? = hD[i]? ∧
      ∀ k, k < 3 →
        (applyRaiseLower ops hD cD ip brush isRaise).2[3 * i + k]? = cD[3 * i + k]? := by
  have hnc : ¬(i < totalVertices ∧
      distSqIdx ip i < brush.size / 2 * (brush.size / 2)) :=
    fun hc => absurd hc.2 (not_lt.2 hfar)
  constructor
  · exact getElem?_overwrite_congr _ _ _ (if_neg hnc)
  · intro k hk
    have hidx : (3 * i + k) / 3 = i := by omega
    simp only [applyRaiseLower]
    apply getElem?_overwrite_congr
    simp only [hidx]
    exact if_neg hnc

theorem applyFlatten_frame (ops : RealOps) (hD cD : List ℚ) (ip : Vec3)
    (brush : BrushSettings) (t : ℚ) (i : ℕ)
    (hfar : brush.size / 2 * (brush.size / 2) ≤ distSqIdx ip i) :
    (applyFlatten ops hD cD ip brush t).1[i]? = hD[i]? ∧
      ∀ k, k < 3 →
        (applyFlatten ops hD cD ip brush t).2[3 * i + k]? = cD[3 * i + k]? := by
  have hnc : ¬(i < totalVertices ∧
      distSqIdx ip i < brush.size / 2 * (brush.size / 2)) :=
    fun hc => absurd hc.2 (not_lt.2 hfar)
  constructor
  · exact getElem?_overwrite_congr _ _ _ (if_neg hnc)
  · intro k hk
    have hidx : (3 * i + k) / 3 = i := by omega
    simp only [applyFlatten]
    apply getElem?_overwrite_congr
    simp only [hidx]
    exact if_neg hnc

theorem applySmooth_frame (ops : RealOps) (hD cD : List ℚ) (ip : Vec3)
    (brush : BrushSettings) (i : ℕ)
    (hfar : brush.size / 2 * (brush.size / 2) ≤ distSqIdx ip i) :
    (applySmooth ops hD cD ip brush).1[i]? = hD[i]? ∧
      ∀ k, k < 3 →
        (applySmooth ops hD cD ip brush).2[3 * i + k]? = cD[3 * i + k]? := by
  have hnc : ¬(i < totalVertices ∧
      distSqIdx ip i < brush.size / 2 * (brush.size / 2)) :=
    fun hc => absurd hc.2 (not_lt.2 hfar)
  constructor
  · exact getElem?_overwrite_congr _ _ _ (if_neg hnc)
  · intro k hk
    have hidx : (3 * i + k) / 3 = i := by omega
    simp only [applySmooth]
    apply getElem?_overwrite_congr
    simp only [hidx]
    exact if_neg hnc

theorem applyPlane_frame (ops : RealOps) (hD cD : List ℚ) (ip : Vec3)
    (brush : BrushSettings) (t : ℚ) (i : ℕ)
    (hfar : brush.size / 2 * (brush.size / 2) ≤ distSqIdx ip i) :
    (applyPlane ops hD cD ip brush t).1[i]? = hD[i]? ∧
      ∀ k, k < 3 →
        (applyPlane ops hD cD ip brush t).2[3 * i + k]? = cD[3 * i + k]? := by
  have hnc : ¬(i < totalVertices ∧
      distSqIdx ip i < brush.size / 2 * (brush.size / 2)) :=
    fun hc => absurd hc.2 (not_lt.2 hfar)
  constructor
  · exact getElem?_overwrite_congr _ _ _ (if_neg hnc)
  · intro k hk
    have hidx : (3 * i + k) / 3 = i := by omega
    simp only [applyPlane]
    apply getElem?_overwrite_congr
    simp only [hidx]
    exact if_neg hnc

theorem applyPaint_frame (ops : RealOps) (hD cD : List ℚ) (ip : Vec3)
    (brush : BrushSettings) (pc : Color3) (i : ℕ)
    (hfar : brush.size / 2 * (brush.size / 2) ≤ distSqIdx ip i) :
    ∀ k, k < 3 →
      (applyPaint ops hD cD ip brush pc)[3 * i + k]? = cD[3 * i + k]? := by
  have hnc : ¬(i < totalVertices ∧
      distSqIdx ip i < brush.size / 2 * (brush.size / 2)) :=
    fun hc => absurd hc.2 (not_lt.2 hfar)
  intro k hk
  have hidx : (3 * i + k) / 3 = i := by omega
  simp only [applyPaint]
  apply getElem?_overwrite_congr
  simp only [hidx]
  exact if_neg hnc

theorem applyTexturePaint_frame (ops : RealOps) (hD cD : List ℚ) (ip : Vec3)
    (brush : BrushSettings) (tex : Texture) (ts : TextureSettings) (i : ℕ)
    (hfar : brush.size / 2 * (brush.size / 2) ≤ distSqIdx ip i) :
    ∀ k, k < 3 →
      (applyTexturePaint ops hD cD ip brush tex ts)[3 * i + k]? = cD[3 * i + k]? := by
  have hnc : ¬(i < totalVertices ∧
      distSqIdx ip i < brush.size / 2 * (brush.size / 2)) :=
    fun hc => absurd hc.2 (not_lt.2 hfar)
  intro k hk
  have hidx : (3 * i + k) / 3 = i := by omega
  simp only [applyTexturePaint]
  apply getElem?_overwrite_congr
  simp only [hidx]
  exact if_neg hnc

/-- C2: for every tool, input grid, brush settings and world point, every
grid vertex whose planar (X,Z) world-space distance from the brush center
is at least the brush radius `size/2` keeps its height and all three colour
channels unchanged in a non-null `applyBrush` result.  The distance
condition is stated in its squared form `radius² ≤ dx² + dz²`, which for
the nonnegative radii of the data model is equivalent to
`radius ≤ distance` (and the theorem holds for every `brush.size`). -/
theorem applyBrush_frame (ops : RealOps) (heightData colorData : List ℚ)
    (ip : Vec3) (tool : Tool) (brush : BrushSettings) (options : BrushOptions)
    (h' c' : List ℚ)
    (heq : applyBrush ops heightData colorData ip tool brush options = some (h', c'))
    (i : ℕ)
    (hfar : brush.size / 2 * (brush.size / 2) ≤ distSqIdx ip i) :
    h'[i]? = heightData[i]? ∧
      ∀ k, k < 3 → c'[3 * i + k]? = colorData[3 * i + k]? := by
  cases tool with
  | Raise =>
      have heq2 : applyRaiseLower ops heightData colorData ip brush true = (h', c') :=
        Option.some.inj heq
      have hh : (applyRaiseLower ops heightData colorData ip brush true).1 = h' :=
        congrArg Prod.fst heq2
      have hc : (applyRaiseLower ops heightData colorData ip brush true).2 = c' :=
        congrArg Prod.snd heq2
      rw [← hh, ← hc]
      exact applyRaiseLower_frame ops heightData colorData ip brush true i hfar
  | Lower =>
      have heq2 : applyRaiseLower ops heightData colorData ip brush false = (h', c') :=
        Option.some.inj heq
      have hh : (applyRaiseLower ops heightData colorData ip brush false).1 = h' :=
        congrArg Prod.fst heq2
      have hc : (applyRaiseLower ops heightData colorData ip brush false).2 = c' :=
        congrArg Prod.snd heq2
      rw [← hh, ← hc]
      exact applyRaiseLower_frame ops heightData colorData ip brush false i hfar
  | Flatten =>
      cases ht : options.targetHeight with
      | none => simp [applyBrush, ht] at heq
      | some t =>
          have hred : applyBrush ops heightData colorData ip Tool.Flatten brush options =
              some (applyFlatten ops heightData colorData ip brush t) := by
            simp [applyBrush, ht]
          rw [hred] at heq
          have heq2 := Option.some.inj heq
          have hh : (applyFlatten ops heightData colorData ip brush t).1 = h' :=
            congrArg Prod.fst heq2
          have hc : (applyFlatten ops heightData colorData ip brush t).2 = c' :=
            congrArg Prod.snd heq2
          rw [← hh, ← hc]
          exact applyFlatten_frame ops heightData colorData ip brush t i hfar
  | Smooth =>
      have heq2 : applySmooth ops heightData colorData ip brush = (h', c') :=
        Option.some.inj heq
      have hh : (applySmooth ops heightData colorData ip brush).1 = h' :=
        congrArg Prod.fst heq2
      have hc : (applySmooth ops heightData colorData ip brush).2 = c' :=
        congrArg Prod.snd heq2
      rw [← hh, ← hc]
      exact applySmooth_frame ops heightData colorData ip brush i hfar
  | Plane =>
      cases ht : options.targetHeight with
      | none => simp [applyBrush, ht] at heq
      | some t =>
          have hred : applyBrush ops heightData colorData ip Tool.Plane brush options =
              some (applyPlane ops heightData colorData ip brush t) := by
            simp [applyBrush, ht]
          rw [hred] at heq
          have heq2 := Option.some.inj heq
          have hh : (applyPlane ops heightData colorData ip brush t).1 = h' :=
            congrArg Prod.fst heq2
          have hc : (applyPlane ops heightData colorData ip brush t).2 = c' :=
            congrArg Prod.snd heq2
          rw [← hh, ← hc]
          exact applyPlane_frame ops heightData colorData ip brush t i hfar
  | Paint =>
      cases hm : options.paintMode with
      | none => simp [applyBrush, hm] at heq
      | some pm =>
          cases pm with
          | texture =>
              cases htex : options.paintTexture with
              | none => simp [applyBrush, hm, htex] at heq
              | some tex =>
                  cases hts : options.textureSettings with
                  | none => simp [applyBrush, hm, htex, hts] at heq
                  | some ts =>
                      have hred : applyBrush ops heightData colorData ip Tool.Paint
                          brush options = some (heightData,
                          applyTexturePaint ops heightData colorData ip brush tex ts) := by
                        simp [applyBrush, hm, htex, hts]
                      rw [hred] at heq
                      have heq2 := Option.some.inj heq
                      have hh : heightData = h' := congrArg Prod.fst heq2
                      have hc : applyTexturePaint ops heightData colorData ip brush tex ts
                          = c' := congrArg Prod.snd heq2
                      rw [← hh, ← hc]
                      exact ⟨rfl, applyTexturePaint_frame ops heightData colorData
                        ip brush tex ts i hfar⟩
          | color =>
              cases hpc : options.paintColor with
              | none => simp [applyBrush, hm, hpc] at heq
              | some pc =>
                  have hred : applyBrush ops heightData colorData ip Tool.Paint
                      brush options = some (heightData,
                      applyPaint ops heightData colorData ip brush pc) := by
                    simp [applyBrush, hm, hpc]
                  rw [hred] at heq
                  have heq2 := Option.some.inj heq
                  have hh : heightData = h' := congrArg Prod.fst heq2
                  have hc : applyPaint ops heightData colorData ip brush pc = c' :=
                    congrArg Prod.snd heq2
                  rw [← hh, ← hc]
                  exact ⟨rfl, applyPaint_frame ops heightData colorData
                    ip brush pc i hfar⟩

/-- Witness for C2 at a concrete instance: Raise at brush center
`(0, 0, 0)` with size `2` leaves vertex `0` (world `(-50000, -50000)`)
unchanged on a one-vertex buffer. -/
theorem applyBrush_frame_witness :
    (applyRaiseLower ⟨id, id, id, fun _ _ => 0, id, 0⟩ [7] [1, 2, 3] ⟨0, 0, 0⟩ ⟨2⟩ true).1[0]? =
      ([7] : List ℚ)[0]? := by
  refine (applyBrush_frame ⟨id, id, id, fun _ _ => 0, id, 0⟩ [7] [1, 2, 3] ⟨0, 0, 0⟩
    Tool.Raise ⟨2⟩ ⟨none, none, none, none, none⟩ _ _ rfl 0 ?_).1
  norm_num [distSqIdx, vertexWorldX, vertexWorldZ, VERTICES_X, TERRAIN_SEGMENTS_X,
    TERRAIN_SEGMENTS_Y, TERRAIN_WIDTH, TERRAIN_HEIGHT]

/-! ## Length invariant (C4) -/

/-- C4: when the input grid satisfies the data-model invariant
`colorData.length = 3 * heightData.length`, every non-null `applyBrush`
result keeps both buffer lengths and hence the invariant. -/
theorem applyBrush_preserves_lengths (ops : RealOps) (heightData colorData : List ℚ)
    (ip : Vec3) (tool : Tool) (brush : BrushSettings) (options : BrushOptions)
    (h' c' : List ℚ) (hlen : colorData.length = 3 * heightData.length)
    (heq : applyBrush ops heightData colorData ip tool brush options = some (h', c')) :
    h'.length = heightData.length ∧ c'.length = colorData.length ∧
      c'.length = 3 * h'.length := by
  cases tool with
  | Raise =>
      have heq2 := Option.some.inj heq
      have hh : (applyRaiseLower ops heightData colorData ip brush true).1 = h' :=
        congrArg Prod.fst heq2
      have hc : (applyRaiseLower ops heightData colorData ip brush true).2 = c' :=
        congrArg Prod.snd heq2
      rw [← hh, ← hc]
      refine ⟨?_, ?_, ?_⟩ <;> simp [applyRaiseLower, length_overwrite, hlen]
  | Lower =>
      have heq2 := Option.some.inj heq
      have hh : (applyRaiseLower ops heightData colorData ip brush false).1 = h' :=
        congrArg Prod.fst heq2
      have hc : (applyRaiseLower ops heightData colorData ip brush false).2 = c' :=
        congrArg Prod.snd heq2
      rw [← hh, ← hc]
      refine ⟨?_, ?_, ?_⟩ <;> simp [applyRaiseLower, length_overwrite, hlen]
  | Flatten =>
      cases ht : options.targetHeight with
      | none => simp [applyBrush, ht] at heq
      | some t =>
          have hred : applyBrush ops heightData colorData ip Tool.Flatten brush options =
              some (applyFlatten ops heightData colorData ip brush t) := by
            simp [applyBrush, ht]
          rw [hred] at heq
          have heq2 := Option.some.inj heq
          have hh : (applyFlatten ops heightData colorData ip brush t).1 = h' :=
            congrArg Prod.fst heq2
          have hc : (applyFlatten ops heightData colorData ip brush t).2 = c' :=
            congrArg Prod.snd heq2
          rw [← hh, ← hc]
          refine ⟨?_, ?_, ?_⟩ <;> simp [applyFlatten, length_overwrite, hlen]
  | Smooth =>
      have heq2 := Option.some.inj heq
      have hh : (applySmooth ops heightData colorData ip brush).1 = h' :=
        congrArg Prod.fst heq2
      have hc : (applySmooth ops heightData colorData ip brush).2 = c' :=
        congrArg Prod.snd heq2
      rw [← hh, ← hc]
      refine ⟨?_, ?_, ?_⟩ <;> simp [applySmooth, length_overwrite, hlen]
  | Plane =>
      cases ht : options.targetHeight with
      | none => simp [applyBrush, ht] at heq
      | some t =>
          have hred : applyBrush ops heightData colorData ip Tool.Plane brush options =
              some (applyPlane ops heightData colorData ip brush t) := by
            simp [applyBrush, ht]
          rw [hred] at heq
          have heq2 := Option.some.inj heq
          have hh : (applyPlane ops heightData colorData ip brush t).1 = h' :=
            congrArg Prod.fst heq2
          have hc : (applyPlane ops heightData colorData ip brush t).2 = c' :=
            congrArg Prod.snd heq2
          rw [← hh, ← hc]
          refine ⟨?_, ?_, ?_⟩ <;> simp [applyPlane, length_overwrite, hlen]
  | Paint =>
      cases hm : options.paintMode with
      | none => simp [applyBrush, hm] at heq
      | some pm =>
          cases pm with
          | texture =>
              cases htex : options.paintTexture with
              | none => simp [applyBrush, hm, htex] at heq
              | some tex =>
                  cases hts : options.textureSettings with
                  | none => simp [applyBrush, hm, htex, hts] at heq
                  | some ts =>
                      have hred : applyBrush ops heightData colorData ip Tool.Paint
                          brush options = some (heightData,
                          applyTexturePaint ops heightData colorData ip brush tex ts) := by
                        simp [applyBrush, hm, htex, hts]
                      rw [hred] at heq
                      have heq2 := Option.some.inj heq
                      have hh : heightData = h' := congrArg Prod.fst heq2
                      have hc : applyTexturePaint ops heightData colorData ip brush tex ts
                          = c' := congrArg Prod.snd heq2
                      rw [← hh, ← hc]
                      refine ⟨rfl, ?_, ?_⟩ <;>
                        simp [applyTexturePaint, length_overwrite, hlen]
          | color =>
              cases hpc : options.paintColor with
              | none => simp [applyBrush, hm, hpc] at heq
              | some pc =>
                  have hred : applyBrush ops heightData colorData ip Tool.Paint
                      brush options = some (heightData,
                      applyPaint ops heightData colorData ip brush pc) := by
                    simp [applyBrush, hm, hpc]
                  rw [hred] at heq
                  have heq2 := Option.some.inj heq
                  have hh : heightData = h' := congrArg Prod.fst heq2
                  have hc : applyPaint ops heightData colorData ip brush pc = c' :=
                    congrArg Prod.snd heq2
                  rw [← hh, ← hc]
                  refine ⟨rfl, ?_, ?_⟩ <;> simp [applyPaint, length_overwrite, hlen]

/-- Witness for C4: Smooth on a one-vertex grid with its three colour slots. -/
theorem applyBrush_preserves_lengths_witness :
    (applySmooth ⟨id, id, id, fun _ _ => 0, id, 0⟩ [7] [1, 2, 3] ⟨0, 0, 0⟩ ⟨2⟩).1.length = 1 :=
  (applyBrush_preserves_lengths ⟨id, id, id, fun _ _ => 0, id, 0⟩ [7] [1, 2, 3] ⟨0, 0, 0⟩
    Tool.Smooth ⟨2⟩ ⟨none, none, none, none, none⟩ _ _ (by norm_num) rfl).1

/-! ## Height clamps (C3) -/

/-- C3: inside the brush disc, a non-null Lower result never drops a vertex
height below `SEA_FLOOR_LEVEL`, and a non-null Raise result never lifts a
vertex height above `TERRAIN_WIDTH` (the generous ceiling the source reuses). -/
theorem applyBrush_lower_raise_clamped (ops : RealOps) (heightData colorData : List ℚ)
    (ip : Vec3) (brush : BrushSettings) (options : BrushOptions) (i : ℕ)
    (hitot : i < totalVertices)
    (hin : distSqIdx ip i < brush.size / 2 * (brush.size / 2)) :
    (∀ hL cL, applyBrush ops heightData colorData ip Tool.Lower brush options =
        some (hL, cL) → SEA_FLOOR_LEVEL ≤ hL.getD i 0) ∧
    (∀ hR cR, applyBrush ops heightData colorData ip Tool.Raise brush options =
        some (hR, cR) → hR.getD i 0 ≤ TERRAIN_WIDTH) := by
  constructor
  · intro hL cL heq
    have heq2 := Option.some.inj heq
    have hh : (applyRaiseLower ops heightData colorData ip brush false).1 = hL :=
      congrArg Prod.fst heq2
    rw [← hh]
    rcases Nat.lt_or_ge i heightData.length with hl | hl
    · simp only [applyRaiseLower]
      rw [getD_overwrite _ _ _ hl]
      rw [if_pos (And.intro hitot hin)]
      simp only [Bool.false_eq_true, if_false]
      exact le_max_left _ _
    · simp only [applyRaiseLower]
      rw [List.getD_eq_default _ _ (by simpa [length_overwrite] using hl)]
      norm_num [SEA_FLOOR_LEVEL]
  · intro hR cR heq
    have heq2 := Option.some.inj heq
    have hh : (applyRaiseLower ops heightData colorData ip brush true).1 = hR :=
      congrArg Prod.fst heq2
    rw [← hh]
    rcases Nat.lt_or_ge i heightData.length with hl | hl
    · simp only [applyRaiseLower]
      rw [getD_overwrite _ _ _ hl]
      rw [if_pos (And.intro hitot hin)]
      simp only [if_true]
      exact min_le_right _ _
    · simp only [applyRaiseLower]
      rw [List.getD_eq_default _ _ (by simpa [length_overwrite] using hl)]
      norm_num [TERRAIN_WIDTH]

/-- Witness for C3 at vertex `0`, brush centered on the vertex's world
position `(-50000, -50000)` with size `2`. -/
theorem applyBrush_lower_raise_clamped_witness :
    SEA_FLOOR_LEVEL ≤ (applyRaiseLower ⟨id, id, id, fun _ _ => 0, id, 0⟩ [7] [1, 2, 3]
      ⟨-50000, 0, -50000⟩ ⟨2⟩ false).1.getD 0 0 :=
  (applyBrush_lower_raise_clamped ⟨id, id, id, fun _ _ => 0, id, 0⟩ [7] [1, 2, 3]
    ⟨-50000, 0, -50000⟩ ⟨2⟩ ⟨none, none, none, none, none⟩ 0
    (by norm_num [totalVertices, VERTICES_X, VERTICES_Y, TERRAIN_SEGMENTS_X,
      TERRAIN_SEGMENTS_Y])
    (by norm_num [distSqIdx, vertexWorldX, vertexWorldZ, VERTICES_X, TERRAIN_SEGMENTS_X,
      TERRAIN_SEGMENTS_Y, TERRAIN_WIDTH, TERRAIN_HEIGHT])).1 _ _ rfl

/-! ## Flatten never overshoots (C8) -/

theorem lerp_between {h T s : ℚ} (hs0 : 0 ≤ s) (hs1 : s ≤ 1) :
    min h T ≤ h + (T - h) * s ∧ h + (T - h) * s ≤ max h T := by
  rcases le_total h T with hle | hle
  · rw [min_eq_left hle, max_eq_right hle]
    constructor <;>
      nlinarith [mul_nonneg (sub_nonneg.2 hle) hs0,
        mul_nonneg (sub_nonneg.2 hle) (sub_nonneg.2 hs1)]
  · rw [min_eq_right hle, max_eq_left hle]
    constructor <;>
      nlinarith [mul_nonneg (sub_nonneg.2 hle) hs0,
        mul_nonneg (sub_nonneg.2 hle) (sub_nonneg.2 hs1)]

/-- C8: in a non-null Flatten result with stroke target `T`, every vertex's
new height lies between its previous height and `T` (inclusive), so repeated
Flatten applications at a fixed location approach `T` monotonically and never
overshoot past it. -/
theorem applyBrush_flatten_between (ops : RealOps) (heightData colorData : List ℚ)
    (ip : Vec3) (brush : BrushSettings) (options : BrushOptions) (T : ℚ)
    (h' c' : List ℚ) (hT : options.targetHeight = some T)
    (heq : applyBrush ops heightData colorData ip Tool.Flatten brush options =
      some (h', c')) (i : ℕ) :
    min (heightData.getD i 0) T ≤ h'.getD i 0 ∧
      h'.getD i 0 ≤ max (heightData.getD i 0) T := by
  have hred : applyBrush ops heightData colorData ip Tool.Flatten brush options =
      some (applyFlatten ops heightData colorData ip brush T) := by
    simp [applyBrush, hT]
  rw [hred] at heq
  have heq2 := Option.some.inj heq
  have hh : (applyFlatten ops heightData colorData ip brush T).1 = h' :=
    congrArg Prod.fst heq2
  rw [← hh]
  rcases Nat.lt_or_ge i heightData.length with hl | hl
  · simp only [applyFlatten]
    rw [getD_overwrite _ _ _ hl]
    by_cases hcond : i < totalVertices ∧
        distSqIdx ip i < brush.size / 2 * (brush.size / 2)
    · rw [if_pos hcond]
      have hf0 := brushFalloff_nonneg (brush.size / 2) (ops.sqrt (distSqIdx ip i))
      have hf1 := brushFalloff_le_one (brush.size / 2) (ops.sqrt (distSqIdx ip i))
      exact lerp_between (by unfold DEFAULT_STRENGTH; nlinarith)
        (by unfold DEFAULT_STRENGTH; nlinarith)
    · rw [if_neg hcond]
      exact ⟨min_le_left _ _, le_max_left _ _⟩
  · simp only [applyFlatten]
    rw [List.getD_eq_default _ _ hl,
      List.getD_eq_default _ _ (by simpa [length_overwrite] using hl)]
    exact ⟨min_le_left _ _, le_max_left _ _⟩

/-- Witness for C8: Flatten with target `5` on a one-vertex grid. -/
theorem applyBrush_flatten_between_witness :
    (applyFlatten ⟨id, id, id, fun _ _ => 0, id, 0⟩ [7] [1, 2, 3]
        ⟨0, 0, 0⟩ ⟨2⟩ 5).1.getD 0 0 ≤ max (([7] : List ℚ).getD 0 0) 5 :=
  (applyBrush_flatten_between ⟨id, id, id, fun _ _ => 0, id, 0⟩ [7] [1, 2, 3] ⟨0, 0, 0⟩
    ⟨2⟩ ⟨some 5, none, none, none, none⟩ 5 _ _ rfl rfl 0).2

/-! ## Smooth is idempotent on flat grids (C9) -/

/-- On a sampling function that is constantly `cst` over the grid, the
Smooth kernel's accumulated total is exactly `cst` times the neighbour
count (every in-grid neighbour index is below `totalVertices`). -/
theorem foldl_preserves {α : Type} (P : ℚ × ℕ → Prop) (f : ℚ × ℕ → α → ℚ × ℕ)
    (hf : ∀ acc a, P acc → P (f acc a)) :
    ∀ (l : List α) (acc : ℚ × ℕ), P acc → P (l.foldl f acc) := by
  intro l
  induction l with
  | nil => intro acc h; simpa using h
  | cons hd tl ih =>
      intro acc h
      rw [List.foldl_cons]
      exact ih _ (hf acc hd h)

theorem neighborAcc_const (g : ℕ → ℚ) (cst : ℚ) (y x : ℕ)
    (hg : ∀ n, n < totalVertices → g n = cst) :
    (neighborAcc g y x).1 = cst * ((neighborAcc g y x).2 : ℚ) := by
  unfold neighborAcc
  apply foldl_preserves (fun acc => acc.1 = cst * (acc.2 : ℚ))
  · intro acc j hacc
    apply foldl_preserves (fun acc => acc.1 = cst * (acc.2 : ℚ))
    · intro acc2 i hacc2
      dsimp only
      split
      next h =>
        obtain ⟨h1, h2, h3, h4⟩ := h
        have hidx : ((y : ℤ) + j).toNat * VERTICES_X + ((x : ℤ) + i).toNat
            < totalVertices := by
          simp only [VERTICES_X, VERTICES_Y, TERRAIN_SEGMENTS_X, TERRAIN_SEGMENTS_Y,
            totalVertices] at h2 h4 ⊢
          omega
        rw [hg _ hidx]
        push_cast
        linarith [hacc2]
      next h => exact hacc2
    · exact hacc
  · norm_num

/-- C9: Smooth applied to a uniform-height grid (every vertex at the same
constant) returns height data equal to its input, for every brush center and
size; hence repeated Smooth applications leave a flat grid fixed. -/
theorem applyBrush_smooth_flat_idempotent (ops : RealOps) (colorData : List ℚ)
    (ip : Vec3) (brush : BrushSettings) (options : BrushOptions) (cst : ℚ)
    (h' c' : List ℚ)
    (heq : applyBrush ops (List.replicate totalVertices cst) colorData ip Tool.Smooth
      brush options = some (h', c')) :
    h' = List.replicate totalVertices cst := by
  have heq2 := Option.some.inj heq
  have hh : (applySmooth ops (List.replicate totalVertices cst) colorData ip brush).1 = h' :=
    congrArg Prod.fst heq2
  rw [← hh]
  apply List.ext_getElem?
  intro n
  rcases Nat.lt_or_ge n totalVertices with hn | hn
  · have hlen : n < (List.replicate totalVertices cst).length := by simpa using hn
    have hgd : (List.replicate totalVertices cst).getD n 0 = cst := by
      simp [List.getD_eq_getElem?_getD, List.getElem?_replicate, hn]
    have hrepl : (List.replicate totalVertices cst)[n]? = some cst := by
      simp [List.getElem?_replicate, hn]
    simp only [applySmooth]
    rw [getElem?_overwrite _ _ _ hlen, hrepl, hgd]
    by_cases hcond : n < totalVertices ∧
        distSqIdx ip n < brush.size / 2 * (brush.size / 2)
    · rw [if_pos hcond]
      have hconst := neighborAcc_const
        (fun m => (List.replicate totalVertices cst).getD m 0) cst
        (n / VERTICES_X) (n % VERTICES_X)
        (fun m hm => by simp [List.getD_eq_getElem?_getD, List.getElem?_replicate, hm])
      split
      next hpos =>
        rw [hconst]
        have hne : ((neighborAcc
            (fun m => (List.replicate totalVertices cst).getD m 0)
            (n / VERTICES_X) (n % VERTICES_X)).2 : ℚ) ≠ 0 :=
          Nat.cast_ne_zero.mpr (by omega)
        rw [mul_div_cancel_right₀ _ hne, sub_self, zero_mul, add_zero]
      next => rfl
    · rw [if_neg hcond]
  · have hlen2 : (List.replicate totalVertices cst).length ≤ n := by simpa using hn
    simp only [applySmooth]
    rw [List.getElem?_eq_none (by simpa [length_overwrite] using hlen2),
      List.getElem?_eq_none (by simpa using hlen2)]

/-- Witness for C9: Smooth on the all-zero grid with empty colour data. -/
theorem applyBrush_smooth_flat_idempotent_witness :
    (applySmooth ⟨id, id, id, fun _ _ => 0, id, 0⟩ (List.replicate totalVertices 0) []
        ⟨0, 0, 0⟩ ⟨2⟩).1 = List.replicate totalVertices 0 :=
  applyBrush_smooth_flat_idempotent ⟨id, id, id, fun _ _ => 0, id, 0⟩ [] ⟨0, 0, 0⟩ ⟨2⟩
    ⟨none, none, none, none, none⟩ 0
    (applySmooth ⟨id, id, id, fun _ _ => 0, id, 0⟩ (List.replicate totalVertices 0) []
      ⟨0, 0, 0⟩ ⟨2⟩).1
    (applySmooth ⟨id, id, id, fun _ _ => 0, id, 0⟩ (List.replicate totalVertices 0) []
      ⟨0, 0, 0⟩ ⟨2⟩).2
    (congrArg some (@Prod.mk.eta _ _ (applySmooth ⟨id, id, id, fun _ _ => 0, id, 0⟩
      (List.replicate totalVertices 0) [] ⟨0, 0, 0⟩ ⟨2⟩)).symm)

/-! ## useUndoableState.ts (history engine) -/

def MAX_HISTORY : ℕ := 100

/-- The hook's state: the entry sequence plus the cursor. -/
structure UndoableState (T : Type) where
  history : List T
  currentIndex : ℕ
deriving DecidableEq, Repr

/-- `useState<T[]>([initialState])` with `currentIndex = 0`. -/
def initialUndoable {T : Type} (initialState : T) : UndoableState T :=
  ⟨[initialState], 0⟩

/-- The `while (newHistory.length > MAX_HISTORY) newHistory.shift()` loop. -/
def trimToMax {T : Type} (l : List T) : List T :=
  if h : MAX_HISTORY < l.length then trimToMax l.tail else l
termination_by l.length
decreasing_by
  simp only [List.length_tail]
  omega

/-- `setState`: truncate the redo future, append, trim to capacity, move the
cursor to the end. -/
def setState {T : Type} (s : UndoableState T) (newState : T) : UndoableState T :=
  let newHistory := s.history.take (s.currentIndex + 1) ++ [newState]
  let trimmed := trimToMax newHistory
  ⟨trimmed, trimmed.length - 1⟩

def undo {T : Type} (s : UndoableState T) : UndoableState T :=
  if 0 < s.currentIndex then ⟨s.history, s.currentIndex - 1⟩ else s

def redo {T : Type} (s : UndoableState T) : UndoableState T :=
  if s.currentIndex < s.history.length - 1 then ⟨s.history, s.currentIndex + 1⟩ else s

/-- `state = history[currentIndex]`. -/
def currentState {T : Type} (s : UndoableState T) : Option T :=
  s.history[s.currentIndex]?

theorem trimToMax_of_le {T : Type} (l : List T) (h : l.length ≤ MAX_HISTORY) :
    trimToMax l = l := by
  unfold trimToMax
  rw [dif_neg (by omega)]

theorem trimToMax_of_overflow {T : Type} (l : List T)
    (h : l.length = MAX_HISTORY + 1) : trimToMax l = l.tail := by
  unfold trimToMax
  rw [dif_pos (by omega)]
  exact trimToMax_of_le _ (by simp only [List.length_tail]; omega)

/-- C6: from a history holding a single state `S`, the sequence
`push A; push B; undo; push C` reaches a state where `redo` is a no-op
(the cursor does not move) and `current()` is `C`: a push after undo
destroys the previously redoable future. -/
theorem push_after_undo_destroys_redo {T : Type} (S A B C : T) :
    redo (setState (undo (setState (setState (initialUndoable S) A) B)) C) =
        setState (undo (setState (setState (initialUndoable S) A) B)) C ∧
      currentState (setState (undo (setState (setState (initialUndoable S) A) B)) C) =
        some C := by
  have ht2 : trimToMax ([S, A] : List T) = [S, A] :=
    trimToMax_of_le _ (by simp [MAX_HISTORY])
  have ht3 : trimToMax ([S, A, B] : List T) = [S, A, B] :=
    trimToMax_of_le _ (by simp [MAX_HISTORY])
  have ht4 : trimToMax ([S, A, C] : List T) = [S, A, C] :=
    trimToMax_of_le _ (by simp [MAX_HISTORY])
  have h1 : setState (initialUndoable S) A = ⟨[S, A], 1⟩ := by
    simp [setState, initialUndoable, ht2]
  have h2 : setState (⟨[S, A], 1⟩ : UndoableState T) B = ⟨[S, A, B], 2⟩ := by
    simp [setState, ht3]
  have h3 : undo (⟨[S, A, B], 2⟩ : UndoableState T) = ⟨[S, A, B], 1⟩ := by
    simp [undo]
  have h4 : setState (⟨[S, A, B], 1⟩ : UndoableState T) C = ⟨[S, A, C], 2⟩ := by
    simp [setState, ht4]
  rw [h1, h2, h3, h4]
  constructor
  · simp [redo]
  · simp [currentState]

/-! ## History reachability invariant (C7) -/

inductive HistOp (T : Type) where
  | push (t : T)
  | doUndo
  | doRedo

def applyOp {T : Type} (s : UndoableState T) : HistOp T → UndoableState T
  | HistOp.push t => setState s t
  | HistOp.doUndo => undo s
  | HistOp.doRedo => redo s

def runOps {T : Type} (s : UndoableState T) (ops : List (HistOp T)) : UndoableState T :=
  ops.foldl applyOp s

/-- The History Engine invariant: the cursor is a valid index and the
sequence never exceeds the capacity. -/
def histInv {T : Type} (s : UndoableState T) : Prop :=
  s.currentIndex < s.history.length ∧ s.history.length ≤ MAX_HISTORY

theorem histInv_setState {T : Type} (s : UndoableState T) (t : T) (h : histInv s) :
    histInv (setState s t) := by
  obtain ⟨hc, hl⟩ := h
  have hprelen : (s.history.take (s.currentIndex + 1) ++ [t]).length =
      min (s.currentIndex + 1) s.history.length + 1 := by simp
  simp only [MAX_HISTORY] at hl
  rcases Nat.lt_or_ge MAX_HISTORY (s.history.take (s.currentIndex + 1) ++ [t]).length
    with hov | hle
  · have hov2 : (s.history.take (s.currentIndex + 1) ++ [t]).length = MAX_HISTORY + 1 := by
      simp only [MAX_HISTORY] at hov ⊢
      omega
    simp only [setState, histInv, trimToMax_of_overflow _ hov2, List.length_tail]
    simp only [MAX_HISTORY]
    omega
  · simp only [setState, histInv, trimToMax_of_le _ hle]
    simp only [MAX_HISTORY] at hle ⊢
    omega

theorem histInv_undo {T : Type} (s : UndoableState T) (h : histInv s) :
    histInv (undo s) := by
  obtain ⟨hc, hl⟩ := h
  unfold undo histInv
  split <;> simp_all <;> omega

theorem histInv_redo {T : Type} (s : UndoableState T) (h : histInv s) :
    histInv (redo s) := by
  obtain ⟨hc, hl⟩ := h
  unfold redo histInv
  split <;> simp_all <;> omega

theorem histInv_runOps {T : Type} (ops : List (HistOp T)) :
    ∀ (s : UndoableState T), histInv s → histInv (runOps s ops) := by
  induction ops with
  | nil => intro s h; exact h
  | cons op rest ih =>
      intro s h
      rw [runOps, List.foldl_cons]
      cases op with
      | push t => exact ih _ (histInv_setState s t h)
      | doUndo => exact ih _ (histInv_undo s h)
      | doRedo => exact ih _ (histInv_redo s h)

/-- Iterating `undo` at least `currentIndex` times reaches cursor `0`
without changing the entry sequence. -/
theorem undo_iter_to_zero {T : Type} :
    ∀ (n : ℕ) (s : UndoableState T), s.currentIndex ≤ n →
      undo^[n] s = ⟨s.history, 0⟩ := by
  intro n
  induction n with
  | zero =>
      intro s h
      cases s with
      | mk hist idx =>
          simp only [Nat.le_zero] at h
          simp [h]
  | succ n ih =>
      intro s h
      rw [Function.iterate_succ_apply]
      by_cases h0 : 0 < s.currentIndex
      · have hu : undo s = ⟨s.history, s.currentIndex - 1⟩ := by simp [undo, h0]
        rw [hu, ih _ (by simp; omega)]
      · have hz : undo s = s := by simp [undo, h0]
        rw [hz, ih s (by omega)]

/-- C7: every state reachable from the one-entry initial history by pushes,
undos and redos has a cursor that is a valid index, an entry sequence of at
most `MAX_HISTORY = 100` entries, and repeating `undo` cursor-many times
lands on the oldest remaining entry (index `0` of the surviving sequence). -/
theorem history_reachable_invariant {T : Type} (S : T) (ops : List (HistOp T)) :
    (runOps (initialUndoable S) ops).currentIndex <
        (runOps (initialUndoable S) ops).history.length ∧
      (runOps (initialUndoable S) ops).history.length ≤ MAX_HISTORY ∧
      currentState (undo^[(runOps (initialUndoable S) ops).currentIndex]
          (runOps (initialUndoable S) ops)) =
        (runOps (initialUndoable S) ops).history[0]? := by
  have hinv : histInv (runOps (initialUndoable S) ops) :=
    histInv_runOps ops _ (by simp [initialUndoable, histInv, MAX_HISTORY])
  refine ⟨hinv.1, hinv.2, ?_⟩
  rw [undo_iter_to_zero _ _ (le_refl _)]
  rfl

/-! ## Stroke target sampling (C10), from `onPointerDown` -/

/-- The `onPointerDown` stroke-target logic: for Flatten and Plane the hit
point's height is sampled; a Plane stroke started below `LAND_LEVEL` snaps
the target to `LAND_LEVEL`; other tools leave the target unset. -/
def strokeTargetHeight (tool : Tool) (hitPoint : Vec3) : Option ℚ :=
  if tool = Tool.Flatten ∨ tool = Tool.Plane then
    let targetHeight := hitPoint.y
    some (if tool = Tool.Plane ∧ targetHeight < LAND_LEVEL then LAND_LEVEL
      else targetHeight)
  else none

/-- C10: a Plane stroke started on a hit point below sea level
(`LAND_LEVEL = 0`) fixes the stroke target to exactly `LAND_LEVEL`, while a
Flatten stroke always keeps the sampled height unclamped. -/
theorem strokeTarget_plane_clamped_flatten_raw (p : Vec3) :
    (p.y < LAND_LEVEL → strokeTargetHeight Tool.Plane p = some LAND_LEVEL) ∧
      strokeTargetHeight Tool.Flatten p = some p.y := by
  constructor
  · intro h
    simp [strokeTargetHeight, h]
  · simp [strokeTargetHeight]

/-- Witness for C10 at hit height `-5`. -/
theorem strokeTarget_plane_clamped_flatten_raw_witness :
    strokeTargetHeight Tool.Plane ⟨0, -5, 0⟩ = some LAND_LEVEL ∧
      strokeTargetHeight Tool.Flatten ⟨0, -5, 0⟩ = some (-5) :=
  ⟨(strokeTarget_plane_clamped_flatten_raw ⟨0, -5, 0⟩).1
      (by norm_num [LAND_LEVEL]),
    (strokeTarget_plane_clamped_flatten_raw ⟨0, -5, 0⟩).2⟩

/-! ## Procedural generator (C1) -/

inductive FeatureType where
  | mountain
  | ridge
  | lake
  | valley
deriving DecidableEq, Repr

structure TerrainFeature where
  type : FeatureType
  x : ℚ
  z : ℚ
  radius : ℚ
  height : ℚ
deriving DecidableEq, Repr

structure BaseParams where
  octaves : ℕ
  persistence : ℚ
  lacunarity : ℚ
  baseFrequency : ℚ
  exponent : ℚ
  heightScale : ℚ
deriving DecidableEq, Repr

structure ProceduralParams where
  baseParams : BaseParams
  features : List TerrainFeature
deriving DecidableEq, Repr

/-- The shuffled permutation tables of the `SimplexNoise` class. -/
structure SimplexNoise where
  perm : List ℕ
  permMod12 : List ℕ
deriving DecidableEq, Repr

/-- One draw of `createPrng`: `s = Math.sin(s) * 10000; return s - floor(s)`,
returning `(value, new state)`. -/
def createPrngStep (ops : RealOps) (s : ℚ) : ℚ × ℚ :=
  let s2 := ops.sin s * 10000
  (s2 - (⌊s2⌋ : ℚ), s2)

/-- The Fisher-Yates indices `i = 255, 254, …, 1` of the constructor. -/
def shuffleIndices : List ℕ := (List.range' 1 255).reverse

/-- The `SimplexNoise` constructor: identity table, seeded shuffle, doubled
`perm`, and `perm % 12`. -/
def mkSimplexNoise (ops : RealOps) (seed : ℚ) : SimplexNoise :=
  let p0 := List.range 256
  let result := shuffleIndices.foldl (fun (acc : List ℕ × ℚ) (i : ℕ) =>
    let p := acc.1
    let step := createPrngStep ops acc.2
    let n := (⌊step.1 * ((i : ℚ) + 1)⌋).toNat
    ((p.set i (p.getD n 0)).set n (p.getD i 0), step.2)) (p0, seed)
  let perm := result.1 ++ result.1
  ⟨perm, perm.map (· % 12)⟩

def grad3 : List (List ℚ) :=
  [[1, 1, 0], [-1, 1, 0], [1, -1, 0], [-1, -1, 0],
   [1, 0, 1], [-1, 0, 1], [1, 0, -1], [-1, 0, -1],
   [0, 1, 1], [0, -1, 1], [0, 1, -1], [0, -1, -1]]

/-- `dot(g, x, y) = g[0]*x + g[1]*y`. -/
def dotG (g : List ℚ) (x y : ℚ) : ℚ := g.getD 0 0 * x + g.getD 1 0 * y

/-- The 2-D simplex `noise(xin, yin)` method; `i & 255` on the 32-bit int is
the Euclidean remainder `i % 256`. -/
def SimplexNoise.noise (ops : RealOps) (sn : SimplexNoise) (xin yin : ℚ) : ℚ :=
  let F2 := (1/2) * (ops.sqrt 3 - 1)
  let G2 := (3 - ops.sqrt 3) / 6
  let s := (xin + yin) * F2
  let i : ℤ := ⌊xin + s⌋
  let j : ℤ := ⌊yin + s⌋
  let t := ((i + j : ℤ) : ℚ) * G2
  let X0 := (i : ℚ) - t
  let Y0 := (j : ℚ) - t
  let x0 := xin - X0
  let y0 := yin - Y0
  let ij1 : ℕ × ℕ := if y0 < x0 then (1, 0) else (0, 1)
  let x1 := x0 - (ij1.1 : ℚ) + G2
  let y1 := y0 - (ij1.2 : ℚ) + G2
  let x2 := x0 - 1 + 2 * G2
  let y2 := y0 - 1 + 2 * G2
  let ii : ℕ := (i % 256).toNat
  let jj : ℕ := (j % 256).toNat
  let gi0 := sn.permMod12.getD (ii + sn.perm.getD jj 0) 0
  let gi1 := sn.permMod12.getD (ii + ij1.1 + sn.perm.getD (jj + ij1.2) 0) 0
  let gi2 := sn.permMod12.getD (ii + 1 + sn.perm.getD (jj + 1) 0) 0
  let t0 := 1/2 - x0 * x0 - y0 * y0
  let n0 := if t0 < 0 then 0 else t0 * t0 * (t0 * t0) * dotG (grad3.getD gi0 []) x0 y0
  let t1 := 1/2 - x1 * x1 - y1 * y1
  let n1 := if t1 < 0 then 0 else t1 * t1 * (t1 * t1) * dotG (grad3.getD gi1 []) x1 y1
  let t2 := 1/2 - x2 * x2 - y2 * y2
  let n2 := if t2 < 0 then 0 else t2 * t2 * (t2 * t2) * dotG (grad3.getD gi2 []) x2 y2
  70 * (n0 + n1 + n2)

/-- `maxPossibleAmplitude`: the amplitude sum `Σ persistence^i` over the
octaves, accumulated exactly as the source loop does. -/
def maxPossibleAmplitude (octaves : ℕ) (persistence : ℚ) : ℚ :=
  ((List.range octaves).foldl
    (fun acc _ => (acc.1 + acc.2, acc.2 * persistence)) (0, 1)).1

/-- The per-vertex octave loop accumulating `(amplitude, frequency,
noiseHeight)`. -/
def octaveNoise (ops : RealOps) (sn : SimplexNoise) (y x : ℕ) (octaves : ℕ)
    (persistence lacunarity baseFrequency : ℚ) : ℚ :=
  ((List.range octaves).foldl (fun acc _ =>
    let amplitude := acc.1
    let frequency := acc.2.1
    let noiseHeight := acc.2.2
    let sampleX := vertexWorldX x * frequency
    let sampleY := vertexWorldZ y * frequency
    let perlinValue := SimplexNoise.noise ops sn sampleX sampleY
    (amplitude * persistence,
      (frequency * lacunarity, noiseHeight + perlinValue * amplitude)))
    (1, (baseFrequency, 0))).2.2

def applyFeature (ops : RealOps) (heightData : List ℚ) (feature : TerrainFeature) :
    List ℚ :=
  let radiusSq := feature.radius * feature.radius
  overwrite heightData fun idx h =>
    let dx := vertexWorldX (idx % VERTICES_X) - feature.x
    let dz := vertexWorldZ (idx / VERTICES_X) - feature.z
    let distSq := dx * dx + dz * dz
    if idx < totalVertices ∧ distSq < radiusSq then
      let dist := ops.sqrt distSq
      let t := 1 - dist / feature.radius
      let strength := t * t * (3 - 2 * t)
      if feature.type = FeatureType.mountain ∨ feature.type = FeatureType.ridge then
        if h < feature.height then h + (feature.height - h) * strength else h
      else if feature.type = FeatureType.lake ∨ feature.type = FeatureType.valley then
        if feature.height < h then h + (feature.height - h) * strength else h
      else h
    else h

/-- `generateTerrainFromParams`; the `new SimplexNoise()` constructor's
`Math.random()` default seed is modelled as the explicit `randomSeed`
input. -/
def generateTerrainFromParams (ops : RealOps) (randomSeed : ℚ)
    (params : ProceduralParams) : List ℚ × List ℚ :=
  let simplex := mkSimplexNoise ops randomSeed
  let bp := params.baseParams
  let maxAmp := maxPossibleAmplitude bp.octaves bp.persistence
  let base := (List.range totalVertices).map fun idx =>
    let noiseHeight := octaveNoise ops simplex (idx / VERTICES_X) (idx % VERTICES_X)
      bp.octaves bp.persistence bp.lacunarity bp.baseFrequency
    let normalizedHeight := (noiseHeight / maxAmp + 1) / 2
    ops.pow normalizedHeight bp.exponent * bp.heightScale
  let withFeatures := params.features.foldl (applyFeature ops) base
  let clamped := withFeatures.map fun h => max SEA_FLOOR_LEVEL h
  (clamped, generateInitialColorData clamped)

/-- C1: with the constructor's `Math.random()` draw exposed as the explicit
seed input, `generateTerrainFromParams` is a pure function of the seed and
the params: for any params obeying the documented bounds and any fixed
seed, repeated calls return identical heightData and colorData.  In this
pure embedding the equality of the two call results is definitional — the
theorem records that no hidden state beyond the seed enters the
computation. -/
theorem generateTerrain_deterministic (ops : RealOps) (randomSeed : ℚ)
    (params : ProceduralParams)
    (hoct : 1 ≤ params.baseParams.octaves)
    (hpers : 0 < params.baseParams.persistence)
    (hlac : 0 < params.baseParams.lacunarity)
    (hfreq : 0 < params.baseParams.baseFrequency)
    (hexp : 0 < params.baseParams.exponent) :
    (generateTerrainFromParams ops randomSeed params).1 =
        (generateTerrainFromParams ops randomSeed params).1 ∧
      (generateTerrainFromParams ops randomSeed params).2 =
        (generateTerrainFromParams ops randomSeed params).2 :=
  ⟨rfl, rfl⟩

/-- Witness for C1 at octaves 4, persistence 1/2, lacunarity 2, base
frequency 1/50000, exponent 1, height scale 50, no features, seed 1. -/
theorem generateTerrain_deterministic_witness :
    (generateTerrainFromParams ⟨id, id, id, fun _ _ => 0, id, 0⟩ 1
        ⟨⟨4, 1/2, 2, 1/50000, 1, 50⟩, []⟩).1 =
      (generateTerrainFromParams ⟨id, id, id, fun _ _ => 0, id, 0⟩ 1
        ⟨⟨4, 1/2, 2, 1/50000, 1, 50⟩, []⟩).1 :=
  (generateTerrain_deterministic ⟨id, id, id, fun _ _ => 0, id, 0⟩ 1
    ⟨⟨4, 1/2, 2, 1/50000, 1, 50⟩, []⟩ (by norm_num) (by norm_num) (by norm_num)
    (by norm_num) (by norm_num)).1
